import Mathlib

/-!
Verification development for the plan rule engine of `bitage.py`.

The engine's Python fragments are shallowly embedded below: Python floats
are modelled as rationals (`ℚ`), raising an exception is modelled by the
`Except PyErr` monad, and the string primitives `str.split`, `str.strip`,
`str.join`, `float(...)`, `int(...)` and `str(...)` are modelled by
executable Lean functions over character lists.  `float`/`int` are
modelled on decimal literals (optional sign, digits, one optional point),
which covers every literal form the rule-list grammar of the program
uses.
-/

/-- Python exception kinds raised by the embedded fragments. -/
inductive PyErr
  | valueError
  | indexError
  | nameError
  | zeroDivisionError
deriving DecidableEq, Repr

deriving instance DecidableEq for Except

/-- Model of Python `s.split(sep)` for a one-character separator, on
character lists: splitting the empty list yields one empty piece, as in
Python where `"".split(";") == [""]`. -/
def pySplitChars (sep : Char) : List Char → List (List Char)
  | [] => [[]]
  | c :: rest =>
    match pySplitChars sep rest with
    | [] => [[]]
    | t :: ts => if c = sep then [] :: t :: ts else (c :: t) :: ts

/-- Model of Python `s.split(sep)` on strings. -/
def pySplit (sep : Char) (s : String) : List String :=
  (pySplitChars sep s.toList).map (fun l => ⟨l⟩)

/-- Model of Python `s.strip()`: remove leading and trailing whitespace. -/
def pyStrip (s : String) : String :=
  ⟨((s.toList.dropWhile Char.isWhitespace).reverse.dropWhile Char.isWhitespace).reverse⟩

/-- Model of Python `sep.join(pieces)` for a one-character separator, on
character lists. -/
def pyJoinChars (sep : Char) : List (List Char) → List Char
  | [] => []
  | [p] => p
  | p :: q :: rest => p ++ sep :: pyJoinChars sep (q :: rest)

/-- Model of Python `sep.join(pieces)` on strings. -/
def pyJoin (sep : Char) (pieces : List String) : String :=
  ⟨pyJoinChars sep (pieces.map String.toList)⟩

/-- Value of a list of decimal digit characters, most significant first. -/
def digitsVal (cs : List Char) : ℕ :=
  cs.foldl (fun a c => 10 * a + (c.toNat - 48)) 0

/-- Lexing part of Python `float(s)`: strips whitespace, reads an
optional sign and decimal digits with at most one point, and returns
`(negative, integer part, fractional part, fractional length)`, or
`none` where Python raises `ValueError`. -/
def pyFloatParts (s : String) : Option (Bool × ℕ × ℕ × ℕ) :=
  let cs := (pyStrip s).toList
  let sb : Bool × List Char :=
    match cs with
    | '-' :: r => (true, r)
    | '+' :: r => (false, r)
    | r => (false, r)
  let ip := sb.2.takeWhile Char.isDigit
  let rest := sb.2.dropWhile Char.isDigit
  match rest with
  | [] => if ip.isEmpty then none else some (sb.1, digitsVal ip, 0, 0)
  | '.' :: fr =>
    if fr.all Char.isDigit && (!ip.isEmpty || !fr.isEmpty) then
      some (sb.1, digitsVal ip, digitsVal fr, fr.length)
    else none
  | _ => none

/-- Rational value of a lexed decimal literal. -/
def decValue (p : Bool × ℕ × ℕ × ℕ) : ℚ :=
  (if p.1 then -1 else 1) * ((p.2.1 : ℚ) + (p.2.2.1 : ℚ) / (10 : ℚ) ^ p.2.2.2)

/-- Model of Python `float(s)` restricted to decimal literals.  Returns
`none` where Python raises `ValueError`. -/
def pyFloat (s : String) : Option ℚ :=
  (pyFloatParts s).map decValue

/-- Model of Python `int(s)` restricted to decimal literals: optional
surrounding whitespace, optional sign, then one or more digits.  Returns
`none` where Python raises `ValueError`. -/
def pyInt (s : String) : Option ℤ :=
  let cs := (pyStrip s).toList
  let sb : Bool × List Char :=
    if cs.head? = some '-' then (true, cs.tail)
    else if cs.head? = some '+' then (false, cs.tail)
    else (false, cs)
  if !sb.2.isEmpty && sb.2.all Char.isDigit then
    some (if sb.1 then -(digitsVal sb.2 : ℤ) else (digitsVal sb.2 : ℤ))
  else none

/-- Decimal digit characters of a natural number, least significant
first, with explicit fuel so the recursion is structural. -/
def natDigitsRevFuel : ℕ → ℕ → List Char
  | 0, _ => []
  | fuel + 1, n =>
    if n < 10 then [Char.ofNat (48 + n)]
    else Char.ofNat (48 + n % 10) :: natDigitsRevFuel fuel (n / 10)

/-- Model of Python `str(n)` for a natural number: its decimal digits. -/
def pyStr (n : ℕ) : String :=
  ⟨(natDigitsRevFuel (n + 1) n).reverse⟩

/-- Model of Python division on floats: raises `ZeroDivisionError` when
the denominator is zero. -/
def pyDiv (a b : ℚ) : Except PyErr ℚ :=
  if b = 0 then Except.error PyErr.zeroDivisionError else Except.ok (a / b)

/-! ## Rule parsing as displayed by `App._display_static_buy_plan` -/

/-- Parsed form of one buy-plan token as rendered by
`App._display_static_buy_plan` (src/bitage.py lines 226-239): a
two-field token is a threshold rule, a three-field token is a range
rule, a numeric-parse failure inside those branches is an invalid-rule
diagnostic, and any other field count produces no output line at all. -/
inductive BuyEntry
  | threshold (perc amount : ℚ)
  | range (upper_perc lower_perc amount : ℚ)
  | invalid (raw : String)
deriving DecidableEq

/-- Branching of `App._display_static_buy_plan` on `parts`, the
comma-split fields of one rule token. -/
def parse_buy_parts (rule : String) : List String → List BuyEntry
  | [a, b] =>
    match pyFloat a, pyFloat b with
    | some perc, some amount => [BuyEntry.threshold perc amount]
    | _, _ => [BuyEntry.invalid rule]
  | [a, b, c] =>
    match pyFloat a, pyFloat b, pyFloat c with
    | some upper, some lower, some amount => [BuyEntry.range upper lower amount]
    | _, _, _ => [BuyEntry.invalid rule]
  | _ => []

/-- One buy-plan token: `parts = rule.strip().split(',')` then the
field-count branching. -/
def parse_buy_rule (rule : String) : List BuyEntry :=
  parse_buy_parts rule (pySplit ',' (pyStrip rule))

/-- Rule lines produced by `App._display_static_buy_plan` for a
buy-plan string: nothing when the string is falsy, otherwise the
per-token entries over the semicolon split, in source order. -/
def display_static_buy_plan (plan_string : String) : List BuyEntry :=
  if plan_string = "" then []
  else ((pySplit ';' plan_string).map parse_buy_rule).flatten

/-! ## Rule parsing as displayed by `App._display_interactive_sell_plan` -/

/-- Parsed form of one sell-plan token as rendered by
`App._display_interactive_sell_plan` (src/bitage.py lines 252-272). -/
inductive SellEntry
  | sellRule (perc pos_perc : ℚ)
  | invalid (raw : String)
deriving DecidableEq

/-- Branching of `App._display_interactive_sell_plan` on `parts`: it
reads `parts[0]` and `parts[1]` and catches both `ValueError` and
`IndexError` into the invalid-rule diagnostic, so extra fields beyond
the second are ignored. -/
def parse_sell_parts_display (rule : String) : List String → SellEntry
  | a :: b :: _ =>
    match pyFloat a, pyFloat b with
    | some perc, some pos_perc => SellEntry.sellRule perc pos_perc
    | _, _ => SellEntry.invalid rule
  | _ => SellEntry.invalid rule

/-- One sell-plan token: `parts = rule.strip().split(',')` then the
two-field read. -/
def parse_sell_rule_display (rule : String) : SellEntry :=
  parse_sell_parts_display rule (pySplit ',' (pyStrip rule))

/-- Rule lines produced by `App._display_interactive_sell_plan` for a
sell-plan string: nothing when the string is falsy, otherwise one entry
per semicolon-delimited token, in source order. -/
def display_interactive_sell_plan (sell_plan_str : String) : List SellEntry :=
  if sell_plan_str = "" then []
  else (pySplit ';' sell_plan_str).map parse_sell_rule_display

/-! ## Disabled-index decoding and encoding -/

/-- Integer parse of the kept pieces of a disabled-index string, in
order; the first non-numeric piece raises `ValueError`. -/
def decode_items : List String → Except PyErr (List ℤ)
  | [] => Except.ok []
  | t :: ts =>
    match pyInt t with
    | none => Except.error PyErr.valueError
    | some z =>
      match decode_items ts with
      | Except.error e => Except.error e
      | Except.ok zs => Except.ok (z :: zs)

/-- Model of `[int(i) for i in disabled_str.split(';') if i]`
(src/bitage.py lines 244, 373 and 418): split on `;`, keep truthy
(non-empty) pieces, parse each as an integer left to right; the first
non-numeric piece raises `ValueError`. -/
def decode_disabled (disabled_str : String) : Except PyErr (List ℤ) :=
  decode_items ((pySplit ';' disabled_str).filter (fun t => !(t == "")))

/-- Model of `App._on_sell_rule_toggled` lines 276-277: the disabled
string is the semicolon join of the decimal indices of the unchecked
checkboxes, in index order. -/
def encode_disabled (sell_rule_vars : List Bool) : String :=
  pyJoin ';' (((sell_rule_vars.enum).filter (fun p => !p.2)).map (fun p => pyStr p.1))

/-! ## Sell evaluation in `App.display_dinamic_dca_details` -/

/-- Parse step of the DinamicDCA sell-evaluation loop (src/bitage.py
lines 378-380): `parts = rule.split(',')` (no strip) and
`float(parts[0]), float(parts[1])`.  A failed numeric parse raises
`ValueError`; a missing second field raises `IndexError`, which the
loop's `except ValueError` does not catch. -/
def parse_sell_parts_eval : List String → Except PyErr (ℚ × ℚ)
  | [] => Except.error PyErr.indexError
  | a :: rest =>
    match pyFloat a with
    | none => Except.error PyErr.valueError
    | some target_perc =>
      match rest with
      | [] => Except.error PyErr.indexError
      | b :: _ =>
        match pyFloat b with
        | none => Except.error PyErr.valueError
        | some position_perc => Except.ok (target_perc, position_perc)

/-- Parse step of the DinamicDCA sell-evaluation loop applied to one
rule token. -/
def parse_sell_rule_eval (rule : String) : Except PyErr (ℚ × ℚ) :=
  parse_sell_parts_eval (pySplit ',' rule)

/-- DinamicDCA sell-evaluation loop (src/bitage.py lines 376-384) over
`enumerate(rules)`: a rule whose index is in the disabled list is
skipped; a `ValueError` from the parse is swallowed by `continue`; any
other error propagates; the first remaining rule with
`price >= athv * target_perc` produces the sell action. -/
def eval_sell_rules_dca (athv price : ℚ) (disabled : List ℤ) :
    List (ℕ × String) → Except PyErr (Option (ℚ × ℚ))
  | [] => Except.ok none
  | (i, rule) :: rest =>
    if (i : ℤ) ∈ disabled then eval_sell_rules_dca athv price disabled rest
    else
      match parse_sell_rule_eval rule with
      | Except.error PyErr.valueError => eval_sell_rules_dca athv price disabled rest
      | Except.error e => Except.error e
      | Except.ok (target_perc, position_perc) =>
        if price ≥ athv * target_perc then Except.ok (some (target_perc, position_perc))
        else eval_sell_rules_dca athv price disabled rest

/-- Sell-action computation of `App.display_dinamic_dca_details`
(src/bitage.py lines 372-385): decode the disabled indices, keep the
default no-action result when the sell plan is falsy, otherwise run the
evaluation loop over the semicolon split. -/
def display_dinamic_dca_sell_action (sellplan sellplan_disabled : String)
    (athv price : ℚ) : Except PyErr (Option (ℚ × ℚ)) :=
  match decode_disabled sellplan_disabled with
  | Except.error e => Except.error e
  | Except.ok disabled =>
    if sellplan = "" then Except.ok none
    else eval_sell_rules_dca athv price disabled (pySplit ';' sellplan).enum

/-! ## Sell evaluation in `App.display_cryptopips_details` -/

/-- Cryptopips sell-evaluation loop (src/bitage.py lines 421-429): a
rule whose index is in the disabled list is skipped; every other
iteration reads the undefined name `parts` (the `parts = rule.split(',')`
line is absent from this function), raising `NameError`, which the
loop's `except ValueError` does not catch. -/
def eval_sell_rules_pips (disabled : List ℤ) :
    List (ℕ × String) → Except PyErr (Option (ℚ × ℚ))
  | [] => Except.ok none
  | (i, _) :: rest =>
    if (i : ℤ) ∈ disabled then eval_sell_rules_pips disabled rest
    else Except.error PyErr.nameError

/-- Sell-action computation of `App.display_cryptopips_details`
(src/bitage.py lines 417-430). -/
def display_cryptopips_sell_action (sellplan sellplan_disabled : String) :
    Except PyErr (Option (ℚ × ℚ)) :=
  match decode_disabled sellplan_disabled with
  | Except.error e => Except.error e
  | Except.ok disabled =>
    if sellplan = "" then Except.ok none
    else eval_sell_rules_pips disabled (pySplit ';' sellplan).enum

/-! ## Real-time metrics -/

/-- Metrics block of `App.display_dinamic_dca_details` (src/bitage.py
lines 353-355): price over ATH, current drop from ATH and maximum drop
from ATH, each as a percentage; a zero `athn` raises
`ZeroDivisionError` at the first division, so no metric of the block is
produced. -/
def dca_realtime_metrics (price athn low_since_ath : ℚ) :
    Except PyErr (ℚ × ℚ × ℚ) :=
  match pyDiv price athn, pyDiv (athn - price) athn, pyDiv (athn - low_since_ath) athn with
  | Except.ok price_as_perc_of_ath, Except.ok current_drop_from_ath, Except.ok max_drop_from_ath =>
    Except.ok (price_as_perc_of_ath * 100, current_drop_from_ath * 100, max_drop_from_ath * 100)
  | Except.error e, _, _ => Except.error e
  | Except.ok _, Except.error e, _ => Except.error e
  | Except.ok _, Except.ok _, Except.error e => Except.error e

/-- Profit metric of `App.display_cryptopips_details` (src/bitage.py
line 410): `((price - precio_compra) / precio_compra) * 100`; a zero
purchase price raises `ZeroDivisionError`. -/
def cryptopips_profit_metric (price precio_compra : ℚ) : Except PyErr ℚ :=
  match pyDiv (price - precio_compra) precio_compra with
  | Except.ok profit_perc => Except.ok (profit_perc * 100)
  | Except.error e => Except.error e

/-! ## Buy evaluation -/

/-- Modelled from the spec: the buy-action branch of
`App.display_dinamic_dca_details` is elided in the source at
src/bitage.py line 368 by the comment `... (buy logic remains the
same)`, so the buy evaluator itself is missing from the repository.
Following the spec's words: for each ThresholdBuy rule in index order a
match is `currentPrice ≤ basePrice × lowerBoundFactor`; for each
RangeBuy a match is `basePrice × lowerBoundFactor ≤ currentPrice ≤
basePrice × upperBoundFactor`; the first match across the ordered list
wins, invalid entries are skipped, and no match means no buy action.
The result is the matching rule's 0-based index and its flat currency
amount. -/
def evaluate_buy_rules (base price : ℚ) : List (ℕ × BuyEntry) → Option (ℕ × ℚ)
  | [] => none
  | (i, BuyEntry.threshold perc amount) :: rest =>
    if price ≤ base * perc then some (i, amount)
    else evaluate_buy_rules base price rest
  | (i, BuyEntry.range upper lower amount) :: rest =>
    if base * lower ≤ price ∧ price ≤ base * upper then some (i, amount)
    else evaluate_buy_rules base price rest
  | (_, BuyEntry.invalid _) :: rest => evaluate_buy_rules base price rest

/-- Modelled from the spec: buy evaluation of a buy-plan string against
a base price and a current price, over the rule entries the source's
parser (`App._display_static_buy_plan`) derives from the string. -/
def evaluateBuy (buyplan : String) (base price : ℚ) : Option (ℕ × ℚ) :=
  evaluate_buy_rules base price (display_static_buy_plan buyplan).enum

/-! ## Database model -/

/-- Row of the `dinamic_dca_plans` table (src/bitage.py lines 19-29). -/
structure DcaPlan where
  id : ℕ
  name : String
  ticker : String
  athv : ℚ
  athv_date : String
  buyplan : String
  sellplan : String
  sellplan_disabled : String
deriving DecidableEq

/-- Row of the `cryptopips_plans` table (src/bitage.py lines 30-38). -/
structure PipsPlan where
  id : ℕ
  name : String
  ticker : String
  precio_compra : ℚ
  sellplan : String
  sellplan_disabled : String
deriving DecidableEq

/-- Fresh id for an inserted row (AUTOINCREMENT primary key). -/
def next_id (ids : List ℕ) : ℕ := ids.foldr max 0 + 1

/-- Model of `Database.add_dinamic_dca` (src/bitage.py lines 52-58): the
inserted row's `sellplan_disabled` is the empty string. -/
def add_dinamic_dca (db : List DcaPlan) (name ticker : String) (athv : ℚ)
    (athv_date buyplan sellplan : String) : List DcaPlan :=
  db ++ [⟨next_id (db.map DcaPlan.id), name, ticker, athv, athv_date, buyplan, sellplan, ""⟩]

/-- Model of `Database.update_dinamic_dca` (src/bitage.py lines 64-70):
the UPDATE sets every column except `sellplan_disabled`, which keeps its
stored value. -/
def update_dinamic_dca (db : List DcaPlan) (plan_id : ℕ) (name ticker : String)
    (athv : ℚ) (athv_date buyplan sellplan : String) : List DcaPlan :=
  db.map fun p =>
    if p.id = plan_id then
      ⟨p.id, name, ticker, athv, athv_date, buyplan, sellplan, p.sellplan_disabled⟩
    else p

/-- Model of `Database.add_cryptopips` (src/bitage.py lines 76-81). -/
def add_cryptopips (db : List PipsPlan) (name ticker : String) (precio_compra : ℚ)
    (sellplan : String) : List PipsPlan :=
  db ++ [⟨next_id (db.map PipsPlan.id), name, ticker, precio_compra, sellplan, ""⟩]

/-- Model of `Database.update_cryptopips` (src/bitage.py lines 87-92). -/
def update_cryptopips (db : List PipsPlan) (plan_id : ℕ) (name ticker : String)
    (precio_compra : ℚ) (sellplan : String) : List PipsPlan :=
  db.map fun p =>
    if p.id = plan_id then
      ⟨p.id, name, ticker, precio_compra, sellplan, p.sellplan_disabled⟩
    else p

/-- Model of `Database.update_sell_disabled_status` (src/bitage.py lines
98-101) on the `dinamic_dca_plans` table: only the `sellplan_disabled`
column of the matching row changes. -/
def update_sell_disabled_status_dca (db : List DcaPlan) (plan_id : ℕ)
    (disabled_str : String) : List DcaPlan :=
  db.map fun p =>
    if p.id = plan_id then { p with sellplan_disabled := disabled_str } else p

/-- Model of `Database.update_sell_disabled_status` on the
`cryptopips_plans` table. -/
def update_sell_disabled_status_pips (db : List PipsPlan) (plan_id : ℕ)
    (disabled_str : String) : List PipsPlan :=
  db.map fun p =>
    if p.id = plan_id then { p with sellplan_disabled := disabled_str } else p

/-- Model of `App._on_sell_rule_toggled` (src/bitage.py lines 274-286)
for a DinamicDCA plan: encode the checkbox states and persist them. -/
def on_sell_rule_toggled_dca (db : List DcaPlan) (plan_id : ℕ)
    (sell_rule_vars : List Bool) : List DcaPlan :=
  update_sell_disabled_status_dca db plan_id (encode_disabled sell_rule_vars)

/-- Row lookup used by `App.display_dinamic_dca_details`
(src/bitage.py line 325): first row with the selected id. -/
def get_plan_dca (db : List DcaPlan) (plan_id : ℕ) : Option DcaPlan :=
  db.find? (fun p => p.id == plan_id)

/-- Model of `App._on_sell_rule_toggled` (src/bitage.py lines 274-286)
for a Cryptopips plan: encode the checkbox states and persist them in
the `cryptopips_plans` table. -/
def on_sell_rule_toggled_pips (db : List PipsPlan) (plan_id : ℕ)
    (sell_rule_vars : List Bool) : List PipsPlan :=
  update_sell_disabled_status_pips db plan_id (encode_disabled sell_rule_vars)

/-- Row lookup used by `App.display_cryptopips_details`
(src/bitage.py line 389): first row with the selected id. -/
def get_plan_pips (db : List PipsPlan) (plan_id : ℕ) : Option PipsPlan :=
  db.find? (fun p => p.id == plan_id)

/-! ## Predicates used to state the evaluation claims -/

/-- The ten decimal digit characters. -/
def digitChars : List Char := ['0', '1', '2', '3', '4', '5', '6', '7', '8', '9']

/-- A buy rule entry matches the spec's buy condition at a base and a
current price: threshold rules match below `base * perc`, range rules
match inside `[base * lower, base * upper]`, invalid entries never
match; all comparisons inclusive. -/
def buy_entry_matches (base price : ℚ) : BuyEntry → Prop
  | BuyEntry.threshold perc _ => price ≤ base * perc
  | BuyEntry.range upper lower _ => base * lower ≤ price ∧ price ≤ base * upper
  | BuyEntry.invalid _ => False

/-- Flat currency amount a buy rule entry would invest. -/
def buy_entry_amount : BuyEntry → Option ℚ
  | BuyEntry.threshold _ amount => some amount
  | BuyEntry.range _ _ amount => some amount
  | BuyEntry.invalid _ => none

/-- A sell rule token matches at a base and a current price: it parses
to `(target_perc, position_perc)` in the evaluation loop and
`price ≥ athv * target_perc`. -/
def sell_rule_matches (athv price : ℚ) (rule : String) : Prop :=
  ∃ f p, parse_sell_rule_eval rule = Except.ok (f, p) ∧ price ≥ athv * f

/-! ## Concrete literal evaluations shared by several claims -/

theorem pyFloat_08 : pyFloat "0.8" = some (4/5 : ℚ) := by
  rw [pyFloat, show pyFloatParts "0.8" = some (false, 0, 8, 1) from by decide]
  norm_num [decValue]

theorem pyFloat_06 : pyFloat "0.6" = some (3/5 : ℚ) := by
  rw [pyFloat, show pyFloatParts "0.6" = some (false, 0, 6, 1) from by decide]
  norm_num [decValue]

theorem pyFloat_05 : pyFloat "0.5" = some (1/2 : ℚ) := by
  rw [pyFloat, show pyFloatParts "0.5" = some (false, 0, 5, 1) from by decide]
  norm_num [decValue]

theorem pyFloat_100 : pyFloat "100" = some (100 : ℚ) := by
  rw [pyFloat, show pyFloatParts "100" = some (false, 100, 0, 0) from by decide]
  norm_num [decValue]

theorem pyFloat_200 : pyFloat "200" = some (200 : ℚ) := by
  rw [pyFloat, show pyFloatParts "200" = some (false, 200, 0, 0) from by decide]
  norm_num [decValue]

theorem pyFloat_20 : pyFloat "2.0" = some (2 : ℚ) := by
  rw [pyFloat, show pyFloatParts "2.0" = some (false, 2, 0, 1) from by decide]
  norm_num [decValue]

theorem pyFloat_15 : pyFloat "1.5" = some (3/2 : ℚ) := by
  rw [pyFloat, show pyFloatParts "1.5" = some (false, 1, 5, 1) from by decide]
  norm_num [decValue]

theorem pyFloat_50 : pyFloat "50" = some (50 : ℚ) := by
  rw [pyFloat, show pyFloatParts "50" = some (false, 50, 0, 0) from by decide]
  norm_num [decValue]

theorem pyFloat_25 : pyFloat "25" = some (25 : ℚ) := by
  rw [pyFloat, show pyFloatParts "25" = some (false, 25, 0, 0) from by decide]
  norm_num [decValue]

theorem parse_sell_eval_2050 : parse_sell_rule_eval "2.0,50" = Except.ok (2, 50) := by
  rw [parse_sell_rule_eval, show pySplit ',' "2.0,50" = ["2.0", "50"] from by decide]
  simp [parse_sell_parts_eval, pyFloat_20, pyFloat_50]

theorem parse_sell_eval_1525 : parse_sell_rule_eval "1.5,25" = Except.ok (3/2, 25) := by
  rw [parse_sell_rule_eval, show pySplit ',' "1.5,25" = ["1.5", "25"] from by decide]
  simp [parse_sell_parts_eval, pyFloat_15, pyFloat_25]

theorem parse_sell_eval_20 : parse_sell_rule_eval "2.0" = Except.error PyErr.indexError := by
  rw [parse_sell_rule_eval, show pySplit ',' "2.0" = ["2.0"] from by decide]
  simp [parse_sell_parts_eval, pyFloat_20]

theorem parse_buy_rule_08100 : parse_buy_rule "0.8,100" = [BuyEntry.threshold (4/5) 100] := by
  rw [parse_buy_rule, show pySplit ',' (pyStrip "0.8,100") = ["0.8", "100"] from by decide]
  simp [parse_buy_parts, pyFloat_08, pyFloat_100]

theorem parse_buy_rule_0605200 :
    parse_buy_rule "0.6,0.5,200" = [BuyEntry.range (3/5) (1/2) 200] := by
  rw [parse_buy_rule, show pySplit ',' (pyStrip "0.6,0.5,200") = ["0.6", "0.5", "200"] from by decide]
  simp [parse_buy_parts, pyFloat_06, pyFloat_05, pyFloat_200]

/-! ## First-match characterization of the buy evaluator -/

theorem evaluate_buy_rules_eq_none (base price : ℚ) :
    ∀ (es : List BuyEntry) (k : ℕ),
      (∀ e ∈ es, ¬ buy_entry_matches base price e) →
      evaluate_buy_rules base price (List.enumFrom k es) = none
  | [], _, _ => by simp [evaluate_buy_rules]
  | e :: es, k, h => by
    rw [List.enumFrom_cons]
    have hrest := evaluate_buy_rules_eq_none base price es (k + 1)
      (fun e2 he2 => h e2 (List.mem_cons_of_mem _ he2))
    have hhead := h e (List.mem_cons_self _ _)
    cases e with
    | threshold perc amount =>
      rw [evaluate_buy_rules, if_neg (by simpa [buy_entry_matches] using hhead)]
      exact hrest
    | range upper lower amount =>
      rw [evaluate_buy_rules, if_neg (by simpa [buy_entry_matches] using hhead)]
      exact hrest
    | invalid raw => rw [evaluate_buy_rules]; exact hrest

theorem evaluate_buy_rules_first_match (base price : ℚ) :
    ∀ (es : List BuyEntry) (k j : ℕ) (e : BuyEntry) (amt : ℚ),
      es[j]? = some e →
      buy_entry_matches base price e →
      buy_entry_amount e = some amt →
      (∀ j2 e2, j2 < j → es[j2]? = some e2 → ¬ buy_entry_matches base price e2) →
      evaluate_buy_rules base price (List.enumFrom k es) = some (k + j, amt)
  | [], _, j, e, amt, hj, _, _, _ => by simp at hj
  | e0 :: es, k, 0, e, amt, hj, hm, ha, _ => by
    rw [List.getElem?_cons_zero, Option.some.injEq] at hj
    subst hj
    rw [List.enumFrom_cons]
    cases e0 with
    | threshold perc amount =>
      rw [evaluate_buy_rules, if_pos (by simpa [buy_entry_matches] using hm)]
      simp [buy_entry_amount] at ha
      simp [ha]
    | range upper lower amount =>
      rw [evaluate_buy_rules, if_pos (by simpa [buy_entry_matches] using hm)]
      simp [buy_entry_amount] at ha
      simp [ha]
    | invalid raw => exact absurd hm (by simp [buy_entry_matches])
  | e0 :: es, k, j + 1, e, amt, hj, hm, ha, hmin => by
    rw [List.getElem?_cons_succ] at hj
    have hhead : ¬ buy_entry_matches base price e0 :=
      hmin 0 e0 (Nat.succ_pos j) (List.getElem?_cons_zero)
    have hrest := evaluate_buy_rules_first_match base price es (k + 1) j e amt hj hm ha
      (fun j2 e2 hlt hg => hmin (j2 + 1) e2 (by omega) (by simpa using hg))
    rw [List.enumFrom_cons]
    have harith : k + 1 + j = k + (j + 1) := by omega
    cases e0 with
    | threshold perc amount =>
      rw [evaluate_buy_rules, if_neg (by simpa [buy_entry_matches] using hhead)]
      rw [hrest, harith]
    | range upper lower amount =>
      rw [evaluate_buy_rules, if_neg (by simpa [buy_entry_matches] using hhead)]
      rw [hrest, harith]
    | invalid raw =>
      rw [evaluate_buy_rules]
      rw [hrest, harith]

/-! ## First-match characterization of the DinamicDCA sell evaluator -/

theorem parse_sell_parts_eval_cases (l : List String) :
    parse_sell_parts_eval l = Except.error PyErr.valueError ∨
    parse_sell_parts_eval l = Except.error PyErr.indexError ∨
    ∃ fp, parse_sell_parts_eval l = Except.ok fp := by
  cases l with
  | nil => right; left; rfl
  | cons a rest =>
    cases h : pyFloat a with
    | none => left; simp [parse_sell_parts_eval, h]
    | some f =>
      cases rest with
      | nil => right; left; simp [parse_sell_parts_eval, h]
      | cons b r =>
        cases h2 : pyFloat b with
        | none => left; simp [parse_sell_parts_eval, h, h2]
        | some p =>
          right; right
          exact ⟨(f, p), by simp [parse_sell_parts_eval, h, h2]⟩

theorem parse_sell_rule_eval_cases (rule : String) :
    parse_sell_rule_eval rule = Except.error PyErr.valueError ∨
    parse_sell_rule_eval rule = Except.error PyErr.indexError ∨
    ∃ fp, parse_sell_rule_eval rule = Except.ok fp :=
  parse_sell_parts_eval_cases (pySplit ',' rule)

theorem sell_rule_matches_iff {rule : String} {f p : ℚ} (athv price : ℚ)
    (hp : parse_sell_rule_eval rule = Except.ok (f, p)) :
    sell_rule_matches athv price rule ↔ price ≥ athv * f := by
  constructor
  · rintro ⟨f2, p2, hp2, hge⟩
    have h2 := hp2.symm.trans hp
    rw [Except.ok.injEq, Prod.mk.injEq] at h2
    obtain ⟨rfl, rfl⟩ := h2
    exact hge
  · intro hge
    exact ⟨f, p, hp, hge⟩

theorem eval_sell_rules_dca_eq_none (athv price : ℚ) (disabled : List ℤ) :
    ∀ (rules : List String) (k : ℕ),
      (∀ j rule, rules[j]? = some rule → ((k + j : ℕ) : ℤ) ∉ disabled →
        parse_sell_rule_eval rule ≠ Except.error PyErr.indexError ∧
        ¬ sell_rule_matches athv price rule) →
      eval_sell_rules_dca athv price disabled (List.enumFrom k rules) = Except.ok none
  | [], _, _ => by simp [eval_sell_rules_dca]
  | rule :: rules, k, h => by
    rw [List.enumFrom_cons]
    have hrest := eval_sell_rules_dca_eq_none athv price disabled rules (k + 1)
      (fun j r2 hg hnd => h (j + 1) r2 (by simpa using hg)
        (by rwa [show k + (j + 1) = k + 1 + j from by omega]))
    by_cases hd : ((k : ℕ) : ℤ) ∈ disabled
    · rw [eval_sell_rules_dca, if_pos hd]
      exact hrest
    · obtain ⟨hnix, hnm⟩ := h 0 rule (by simp) (by simpa using hd)
      rw [eval_sell_rules_dca, if_neg hd]
      rcases parse_sell_rule_eval_cases rule with hp | hp | ⟨⟨f, p⟩, hp⟩
      · rw [hp]
        exact hrest
      · exact absurd hp hnix
      · rw [hp]
        have hlt : ¬ price ≥ athv * f := by
          intro hge
          exact hnm ((sell_rule_matches_iff athv price hp).mpr hge)
        simp only [if_neg hlt]
        exact hrest

theorem eval_sell_rules_dca_first_match (athv price : ℚ) (disabled : List ℤ) :
    ∀ (rules : List String) (k j : ℕ) (rule : String) (f p : ℚ),
      rules[j]? = some rule →
      ((k + j : ℕ) : ℤ) ∉ disabled →
      parse_sell_rule_eval rule = Except.ok (f, p) →
      price ≥ athv * f →
      (∀ j2 r2, j2 < j → rules[j2]? = some r2 → ((k + j2 : ℕ) : ℤ) ∉ disabled →
        parse_sell_rule_eval r2 ≠ Except.error PyErr.indexError ∧
        ¬ sell_rule_matches athv price r2) →
      eval_sell_rules_dca athv price disabled (List.enumFrom k rules) =
        Except.ok (some (f, p))
  | [], _, j, rule, f, p, hj, _, _, _, _ => by simp at hj
  | r0 :: rules, k, 0, rule, f, p, hj, hnd, hp, hge, _ => by
    rw [List.getElem?_cons_zero, Option.some.injEq] at hj
    subst hj
    rw [List.enumFrom_cons, eval_sell_rules_dca, if_neg (by simpa using hnd), hp]
    simp only [if_pos hge]
  | r0 :: rules, k, j + 1, rule, f, p, hj, hnd, hp, hge, hmin => by
    rw [List.getElem?_cons_succ] at hj
    have hnd2 : ((k + 1 + j : ℕ) : ℤ) ∉ disabled := by
      have harith : k + 1 + j = k + (j + 1) := by omega
      rwa [harith]
    have hrest := eval_sell_rules_dca_first_match athv price disabled rules (k + 1) j
      rule f p hj hnd2 hp hge
      (fun j2 r2 hlt hg hnd3 => hmin (j2 + 1) r2 (by omega) (by simpa using hg)
        (by rwa [show k + (j2 + 1) = k + 1 + j2 from by omega]))
    rw [List.enumFrom_cons]
    by_cases hd : ((k : ℕ) : ℤ) ∈ disabled
    · rw [eval_sell_rules_dca, if_pos hd]
      exact hrest
    · obtain ⟨hnix, hnm⟩ := hmin 0 r0 (Nat.succ_pos j) (by simp) (by simpa using hd)
      rw [eval_sell_rules_dca, if_neg hd]
      rcases parse_sell_rule_eval_cases r0 with hp0 | hp0 | ⟨⟨f2, p2⟩, hp0⟩
      · rw [hp0]
        exact hrest
      · exact absurd hp0 hnix
      · rw [hp0]
        have hlt : ¬ price ≥ athv * f2 := by
          intro hge2
          exact hnm ((sell_rule_matches_iff athv price hp0).mpr hge2)
        simp only [if_neg hlt]
        exact hrest

/-! ## Concrete sell-action evaluations -/

theorem decode_disabled_empty : decode_disabled "" = Except.ok [] := by decide

theorem decode_disabled_zero : decode_disabled "0" = Except.ok [0] := by decide

theorem dca_sell_example_both_match :
    display_dinamic_dca_sell_action "2.0,50;1.5,25" "" 100 250 = Except.ok (some (2, 50)) := by
  rw [display_dinamic_dca_sell_action, decode_disabled_empty]
  dsimp only
  rw [if_neg (by decide : ¬("2.0,50;1.5,25" : String) = "")]
  rw [show pySplit ';' "2.0,50;1.5,25" = ["2.0,50", "1.5,25"] from by decide]
  rw [show (["2.0,50", "1.5,25"] : List String).enum = [(0, "2.0,50"), (1, "1.5,25")] from by decide]
  rw [eval_sell_rules_dca, if_neg (by decide : ¬((0 : ℕ) : ℤ) ∈ ([] : List ℤ))]
  rw [parse_sell_eval_2050]
  dsimp only
  rw [if_pos (by norm_num : (250 : ℚ) ≥ 100 * 2)]

theorem dca_sell_example_first_disabled :
    display_dinamic_dca_sell_action "2.0,50;1.5,25" "0" 100 250 = Except.ok (some (3/2, 25)) := by
  rw [display_dinamic_dca_sell_action, decode_disabled_zero]
  dsimp only
  rw [if_neg (by decide : ¬("2.0,50;1.5,25" : String) = "")]
  rw [show pySplit ';' "2.0,50;1.5,25" = ["2.0,50", "1.5,25"] from by decide]
  rw [show (["2.0,50", "1.5,25"] : List String).enum = [(0, "2.0,50"), (1, "1.5,25")] from by decide]
  rw [eval_sell_rules_dca, if_pos (by decide : ((0 : ℕ) : ℤ) ∈ ([0] : List ℤ))]
  rw [eval_sell_rules_dca, if_neg (by decide : ¬((1 : ℕ) : ℤ) ∈ ([0] : List ℤ))]
  rw [parse_sell_eval_1525]
  dsimp only
  rw [if_pos (by norm_num : (250 : ℚ) ≥ 100 * (3/2))]

theorem dca_sell_short_token_crash :
    display_dinamic_dca_sell_action "2.0" "" 100 250 = Except.error PyErr.indexError := by
  rw [display_dinamic_dca_sell_action, decode_disabled_empty]
  dsimp only
  rw [if_neg (by decide : ¬("2.0" : String) = "")]
  rw [show pySplit ';' "2.0" = ["2.0"] from by decide]
  rw [show (["2.0"] : List String).enum = [(0, "2.0")] from by decide]
  rw [eval_sell_rules_dca, if_neg (by decide : ¬((0 : ℕ) : ℤ) ∈ ([] : List ℤ))]
  rw [parse_sell_eval_20]

theorem pips_sell_name_error_crash :
    display_cryptopips_sell_action "1.5,25" "" = Except.error PyErr.nameError := by decide

/-! ## Concrete buy-plan evaluations -/

theorem parse_buyplan_example :
    display_static_buy_plan "0.8,100;0.6,0.5,200" =
      [BuyEntry.threshold (4/5) 100, BuyEntry.range (3/5) (1/2) 200] := by
  rw [display_static_buy_plan, if_neg (by decide : ¬("0.8,100;0.6,0.5,200" : String) = "")]
  rw [show pySplit ';' "0.8,100;0.6,0.5,200" = ["0.8,100", "0.6,0.5,200"] from by decide]
  rw [List.map_cons, List.map_cons, List.map_nil, parse_buy_rule_08100, parse_buy_rule_0605200]
  rfl

theorem evaluateBuy_example :
    evaluateBuy "0.8,100;0.6,0.5,200" 100 75 = some (0, 100) := by
  rw [evaluateBuy, parse_buyplan_example]
  rw [show ([BuyEntry.threshold (4/5) 100, BuyEntry.range (3/5) (1/2) 200]).enum =
        [(0, BuyEntry.threshold (4/5) 100), (1, BuyEntry.range (3/5) (1/2) 200)] from rfl]
  rw [evaluate_buy_rules, if_pos (by norm_num : (75 : ℚ) ≤ 100 * (4/5))]

/-! ## Claim theorems -/

/-- C1: for every parsed buy-rule list, base price and current price,
buy evaluation returns the action (index and amount) of the first
matching rule — ThresholdBuy matching at `price ≤ base * factor`,
RangeBuy matching inside `[base * lower, base * upper]` — and `none`
when no rule matches; in particular for buyplan `0.8,100;0.6,0.5,200`
with base 100 and price 75 it recommends buying 100 via rule 0.  The
buy evaluator is modelled from the spec because the source elides it
(src/bitage.py line 368). -/
theorem c1_buy_first_match_wins :
    (evaluateBuy "0.8,100;0.6,0.5,200" 100 75 = some (0, 100)) ∧
    (∀ (bp : String) (base price : ℚ) (j : ℕ) (e : BuyEntry) (amt : ℚ),
      (display_static_buy_plan bp)[j]? = some e →
      buy_entry_matches base price e →
      buy_entry_amount e = some amt →
      (∀ j2 e2, j2 < j → (display_static_buy_plan bp)[j2]? = some e2 →
        ¬ buy_entry_matches base price e2) →
      evaluateBuy bp base price = some (j, amt)) ∧
    (∀ (bp : String) (base price : ℚ),
      (∀ e ∈ display_static_buy_plan bp, ¬ buy_entry_matches base price e) →
      evaluateBuy bp base price = none) := by
  refine ⟨evaluateBuy_example, ?_, ?_⟩
  · intro bp base price j e amt hj hm ha hmin
    have h := evaluate_buy_rules_first_match base price (display_static_buy_plan bp) 0 j
      e amt hj hm ha hmin
    simpa [evaluateBuy, List.enum] using h
  · intro bp base price h
    have h2 := evaluate_buy_rules_eq_none base price (display_static_buy_plan bp) 0 h
    simpa [evaluateBuy, List.enum] using h2

/-- Witness for C1: the first-match part applied to the concrete plan
`0.8,100;0.6,0.5,200` at base 100 and price 75, where rule 0 is the
threshold rule with factor 0.8 and amount 100. -/
theorem c1_buy_first_match_wins_witness :
    evaluateBuy "0.8,100;0.6,0.5,200" 100 75 = some (0, 100) :=
  c1_buy_first_match_wins.2.1 "0.8,100;0.6,0.5,200" 100 75 0
    (BuyEntry.threshold (4/5) 100) 100
    (by rw [parse_buyplan_example]; rfl)
    (by norm_num [buy_entry_matches])
    (by rfl)
    (fun j2 e2 hlt _ => absurd hlt (by omega))

/-- C2: the claim that no evaluation call raises an uncaught exception
is contradicted by the code: the Cryptopips evaluation loop reads the
undefined name `parts` and raises `NameError` on the first enabled rule,
and the DinamicDCA evaluation loop raises `IndexError` on a rule token
with one numeric field, because only `ValueError` is caught. -/
theorem c2_evaluation_crashes :
    display_cryptopips_sell_action "1.5,25" "" = Except.error PyErr.nameError ∧
    display_dinamic_dca_sell_action "2.0" "" 100 250 = Except.error PyErr.indexError :=
  ⟨pips_sell_name_error_crash, dca_sell_short_token_crash⟩

/-- C4 counterexample: with `athNow = 0` (or `purchasePrice = 0`) the
metric computation does not report one metric as unavailable with the
others still computed — the whole block aborts with the uncaught
`ZeroDivisionError`, so no metric at all is produced. -/
theorem c4_counterexample :
    dca_realtime_metrics 80 0 60 = Except.error PyErr.zeroDivisionError ∧
    cryptopips_profit_metric 120 0 = Except.error PyErr.zeroDivisionError := by
  constructor
  · simp [dca_realtime_metrics, pyDiv]
  · simp [cryptopips_profit_metric, pyDiv]

/-- C4 amended: for every input with a zero denominator (`athNow = 0`
in the DCA metrics, `purchasePrice = 0` in the profit metric) the
computation raises `ZeroDivisionError`; the exception is not contained,
so the evaluation produces no metrics at all — in particular the error
is not a silently propagated infinity. -/
theorem c4_division_by_zero_aborts :
    (∀ price low_since_ath : ℚ,
      dca_realtime_metrics price 0 low_since_ath = Except.error PyErr.zeroDivisionError) ∧
    (∀ price : ℚ,
      cryptopips_profit_metric price 0 = Except.error PyErr.zeroDivisionError) := by
  constructor
  · intro price low_since_ath
    simp [dca_realtime_metrics, pyDiv]
  · intro price
    simp [cryptopips_profit_metric, pyDiv]

/-- C6: for every price, athNow and lowSinceAth with athNow nonzero,
the DCA metrics are `price / athNow * 100`,
`(athNow - price) / athNow * 100` and
`(athNow - lowSinceAth) / athNow * 100`; in particular
`(price = 80, athNow = 100, lowSinceAth = 60)` gives
`(80, 20, 40)`. -/
theorem c6_dca_metrics_formulas :
    (∀ price athn low_since_ath : ℚ, athn ≠ 0 →
      dca_realtime_metrics price athn low_since_ath =
        Except.ok (price / athn * 100, (athn - price) / athn * 100,
          (athn - low_since_ath) / athn * 100)) ∧
    dca_realtime_metrics 80 100 60 = Except.ok (80, 20, 40) := by
  constructor
  · intro price athn low_since_ath h
    simp [dca_realtime_metrics, pyDiv, h]
  · norm_num [dca_realtime_metrics, pyDiv]

/-- Witness for C6: the formula part applied at
`(price, athNow, lowSinceAth) = (80, 100, 60)`. -/
theorem c6_dca_metrics_formulas_witness :
    dca_realtime_metrics 80 100 60 = Except.ok (80, 20, 40) := by
  rw [c6_dca_metrics_formulas.1 80 100 60 (by norm_num)]
  norm_num

/-- C3: sell evaluation skips every rule whose index is in the disabled
set and, among the remaining rules in index order, returns the action of
the first one with `price ≥ athv * factor`, or no action if none
matches; with rules `2.0,50;1.5,25` and both matching at price 250 on
base 100, index 0 wins, and with index 0 disabled, index 1's action is
returned. -/
theorem c3_sell_first_enabled_match :
    (display_dinamic_dca_sell_action "2.0,50;1.5,25" "" 100 250 = Except.ok (some (2, 50))) ∧
    (display_dinamic_dca_sell_action "2.0,50;1.5,25" "0" 100 250 = Except.ok (some (3/2, 25))) ∧
    (∀ (rules : List String) (disabled : List ℤ) (athv price : ℚ) (j : ℕ)
       (rule : String) (f p : ℚ),
      rules[j]? = some rule → ((j : ℕ) : ℤ) ∉ disabled →
      parse_sell_rule_eval rule = Except.ok (f, p) → price ≥ athv * f →
      (∀ j2 r2, j2 < j → rules[j2]? = some r2 → ((j2 : ℕ) : ℤ) ∉ disabled →
        parse_sell_rule_eval r2 ≠ Except.error PyErr.indexError ∧
        ¬ sell_rule_matches athv price r2) →
      eval_sell_rules_dca athv price disabled rules.enum = Except.ok (some (f, p))) ∧
    (∀ (rules : List String) (disabled : List ℤ) (athv price : ℚ),
      (∀ j rule, rules[j]? = some rule → ((j : ℕ) : ℤ) ∉ disabled →
        parse_sell_rule_eval rule ≠ Except.error PyErr.indexError ∧
        ¬ sell_rule_matches athv price rule) →
      eval_sell_rules_dca athv price disabled rules.enum = Except.ok none) := by
  refine ⟨dca_sell_example_both_match, dca_sell_example_first_disabled, ?_, ?_⟩
  · intro rules disabled athv price j rule f p hj hnd hp hge hmin
    have h := eval_sell_rules_dca_first_match athv price disabled rules 0 j rule f p hj
      (by simpa using hnd) hp hge
      (fun j2 r2 hlt hg hnd2 => hmin j2 r2 hlt hg (by simpa using hnd2))
    simpa [List.enum] using h
  · intro rules disabled athv price h
    have h2 := eval_sell_rules_dca_eq_none athv price disabled rules 0
      (fun j rule hg hnd => h j rule hg (by simpa using hnd))
    simpa [List.enum] using h2

/-- Witness for C3: with rules `["2.0,50", "1.5,25"]`, index 0 disabled,
base 100 and price 250, evaluation returns index 1's action. -/
theorem c3_sell_first_enabled_match_witness :
    eval_sell_rules_dca 100 250 [0] (["2.0,50", "1.5,25"]).enum = Except.ok (some (3/2, 25)) :=
  c3_sell_first_enabled_match.2.2.1 ["2.0,50", "1.5,25"] [0] 100 250 1 "1.5,25" (3/2) 25
    (by rfl) (by decide) parse_sell_eval_1525 (by norm_num)
    (fun j2 r2 hlt hg hnd => by
      have hj2 : j2 = 0 := by omega
      subst hj2
      exact absurd (by decide : ((0 : ℕ) : ℤ) ∈ ([0] : List ℤ)) hnd)

/-- C7: the match comparisons are inclusive — a current price exactly
equal to `base * factor` triggers the ThresholdSell action (DinamicDCA
evaluation loop, `price >= athv * target_perc`) and the ThresholdBuy
action (spec-modelled buy evaluator, `price ≤ base * factor`). -/
theorem c7_boundary_inclusive :
    (∀ (athv f p : ℚ) (rule : String) (rest : List String) (disabled : List ℤ),
      parse_sell_rule_eval rule = Except.ok (f, p) → (0 : ℤ) ∉ disabled →
      eval_sell_rules_dca athv (athv * f) disabled (rule :: rest).enum =
        Except.ok (some (f, p))) ∧
    (∀ (base f amt : ℚ) (rest : List BuyEntry),
      evaluate_buy_rules base (base * f) (BuyEntry.threshold f amt :: rest).enum =
        some (0, amt)) := by
  constructor
  · intro athv f p rule rest disabled hp hnd
    have h := eval_sell_rules_dca_first_match athv (athv * f) disabled (rule :: rest) 0 0
      rule f p (by simp) (by simpa using hnd) hp le_rfl
      (fun j2 _ hlt _ _ => absurd hlt (by omega))
    simpa [List.enum] using h
  · intro base f amt rest
    show evaluate_buy_rules base (base * f)
      (List.enumFrom 0 (BuyEntry.threshold f amt :: rest)) = some (0, amt)
    rw [List.enumFrom_cons, evaluate_buy_rules, if_pos le_rfl]

/-- Witness for C7: price exactly `100 * 2` triggers the sell rule
`2.0,50`, and price exactly `100 * 0.8` triggers a threshold buy rule
with factor `0.8`. -/
theorem c7_boundary_inclusive_witness :
    eval_sell_rules_dca 100 (100 * 2) [] (["2.0,50"]).enum = Except.ok (some (2, 50)) ∧
    evaluate_buy_rules 100 (100 * (4/5)) (BuyEntry.threshold (4/5) 100 :: []).enum =
      some (0, 100) :=
  ⟨c7_boundary_inclusive.1 100 2 50 "2.0,50" [] [] parse_sell_eval_2050 (by decide),
   c7_boundary_inclusive.2 100 (4/5) 100 []⟩

/-- C5 counterexample: a buy token with four fields produces no entry
at all (no ParseError diagnostic), and a sell token with three fields
parses as a rule on its first two fields instead of a ParseError. -/
theorem c5_counterexample :
    display_static_buy_plan "1,2,3,4" = [] ∧
    display_interactive_sell_plan "1.5,25,99" = [SellEntry.sellRule (3/2) 25] := by
  constructor
  · decide
  · rw [display_interactive_sell_plan, if_neg (by decide : ¬("1.5,25,99" : String) = "")]
    rw [show pySplit ';' "1.5,25,99" = ["1.5,25,99"] from by decide]
    rw [List.map_cons, List.map_nil]
    rw [parse_sell_rule_display,
      show pySplit ',' (pyStrip "1.5,25,99") = ["1.5", "25", "99"] from by decide]
    simp [parse_sell_parts_display, pyFloat_15, pyFloat_25]

/-- C5 amended: parsing is per-token with output order equal to source
order.  For buy lists: a two-field token with numeric fields gives a
ThresholdBuy, a three-field token a RangeBuy, a numeric-parse failure
inside a two- or three-field token gives an invalid-rule (ParseError)
entry for that token only, and a token with any other field count gives
no entry at all.  For sell lists: any token whose first two fields parse
numerically gives a ThresholdSell (extra fields are ignored), and a
token with one field, or a numeric failure in the first two fields,
gives a ParseError entry. -/
theorem c5_parse_per_token :
    (∀ (pre post : List String) (t : String),
      ((pre ++ t :: post).map parse_buy_rule).flatten =
        (pre.map parse_buy_rule).flatten ++ parse_buy_rule t ++
          (post.map parse_buy_rule).flatten) ∧
    (∀ (s : String) (j : ℕ) (t : String), s ≠ "" → (pySplit ';' s)[j]? = some t →
      (display_interactive_sell_plan s)[j]? = some (parse_sell_rule_display t)) ∧
    (∀ t : String, (pySplit ',' (pyStrip t)).length ≠ 2 →
      (pySplit ',' (pyStrip t)).length ≠ 3 → parse_buy_rule t = []) ∧
    (∀ (t a b : String) (x y : ℚ), pySplit ',' (pyStrip t) = [a, b] →
      pyFloat a = some x → pyFloat b = some y →
      parse_buy_rule t = [BuyEntry.threshold x y]) ∧
    (∀ (t a b : String), pySplit ',' (pyStrip t) = [a, b] →
      pyFloat a = none ∨ pyFloat b = none → parse_buy_rule t = [BuyEntry.invalid t]) ∧
    (∀ (t a b c : String) (x y z : ℚ), pySplit ',' (pyStrip t) = [a, b, c] →
      pyFloat a = some x → pyFloat b = some y → pyFloat c = some z →
      parse_buy_rule t = [BuyEntry.range x y z]) ∧
    (∀ (t a b c : String), pySplit ',' (pyStrip t) = [a, b, c] →
      pyFloat a = none ∨ pyFloat b = none ∨ pyFloat c = none →
      parse_buy_rule t = [BuyEntry.invalid t]) ∧
    (∀ (t a b : String) (r : List String) (x y : ℚ),
      pySplit ',' (pyStrip t) = a :: b :: r →
      pyFloat a = some x → pyFloat b = some y →
      parse_sell_rule_display t = SellEntry.sellRule x y) ∧
    (∀ (t a b : String) (r : List String), pySplit ',' (pyStrip t) = a :: b :: r →
      pyFloat a = none ∨ pyFloat b = none →
      parse_sell_rule_display t = SellEntry.invalid t) ∧
    (∀ (t a : String), pySplit ',' (pyStrip t) = [a] →
      parse_sell_rule_display t = SellEntry.invalid t) := by
  refine ⟨?_, ?_, ?_, ?_, ?_, ?_, ?_, ?_, ?_, ?_⟩
  · intro pre post t
    simp [List.map_append, List.flatten_append]
  · intro s j t hs ht
    simp [display_interactive_sell_plan, hs, List.getElem?_map, ht]
  · intro t h2 h3
    rw [parse_buy_rule]
    rcases hl : pySplit ',' (pyStrip t) with _ | ⟨a, _ | ⟨b, _ | ⟨c, _ | ⟨d, r⟩⟩⟩⟩
    · rfl
    · rfl
    · rw [hl] at h2; simp at h2
    · rw [hl] at h3; simp at h3
    · rfl
  · intro t a b x y hl hx hy
    rw [parse_buy_rule, hl]
    simp [parse_buy_parts, hx, hy]
  · intro t a b hl h
    rw [parse_buy_rule, hl]
    rcases h with h | h
    · simp [parse_buy_parts, h]
    · cases hx : pyFloat a <;> simp [parse_buy_parts, hx, h]
  · intro t a b c x y z hl hx hy hz
    rw [parse_buy_rule, hl]
    simp [parse_buy_parts, hx, hy, hz]
  · intro t a b c hl h
    rw [parse_buy_rule, hl]
    rcases h with h | h | h
    · simp [parse_buy_parts, h]
    · cases hx : pyFloat a <;> simp [parse_buy_parts, hx, h]
    · cases hx : pyFloat a <;> cases hy : pyFloat b <;> simp [parse_buy_parts, hx, hy, h]
  · intro t a b r x y hl hx hy
    rw [parse_sell_rule_display, hl]
    simp [parse_sell_parts_display, hx, hy]
  · intro t a b r hl h
    rw [parse_sell_rule_display, hl]
    rcases h with h | h
    · simp [parse_sell_parts_display, h]
    · cases hx : pyFloat a <;> simp [parse_sell_parts_display, hx, h]
  · intro t a hl
    rw [parse_sell_rule_display, hl]
    rfl

/-- Witness for C5: the amended per-token behavior at concrete tokens —
a four-field buy token gives nothing, a three-field sell token gives the
rule on its first two fields, a two-field buy token gives a
ThresholdBuy. -/
theorem c5_parse_per_token_witness :
    parse_buy_rule "1,2,3,4" = [] ∧
    parse_sell_rule_display "1.5,25,99" = SellEntry.sellRule (3/2) 25 ∧
    parse_buy_rule "0.8,100" = [BuyEntry.threshold (4/5) 100] :=
  ⟨c5_parse_per_token.2.2.1 "1,2,3,4" (by decide) (by decide),
   c5_parse_per_token.2.2.2.2.2.2.2.1 "1.5,25,99" "1.5" "25" ["99"] (3/2) 25
     (by decide) pyFloat_15 pyFloat_25,
   c5_parse_per_token.2.2.2.1 "0.8,100" "0.8" "100" (4/5) 100
     (by decide) pyFloat_08 pyFloat_100⟩

/-! ## Decimal print/parse round trip -/

theorem mem_digitChars_of_lt {m : ℕ} (h : m < 10) : Char.ofNat (48 + m) ∈ digitChars := by
  interval_cases m <;> decide

theorem digitChars_not_whitespace : ∀ c ∈ digitChars, Char.isWhitespace c = false := by decide

theorem digitChars_isDigit : ∀ c ∈ digitChars, Char.isDigit c = true := by decide

theorem digitChars_ne_semicolon : ∀ c ∈ digitChars, c ≠ ';' := by decide

theorem digitChars_ne_sign : ∀ c ∈ digitChars, c ≠ '-' ∧ c ≠ '+' := by decide

theorem digitChars_toNat {m : ℕ} (h : m < 10) : (Char.ofNat (48 + m)).toNat = 48 + m := by
  interval_cases m <;> decide

theorem natDigitsRevFuel_mem :
    ∀ (fuel n : ℕ), n < fuel → ∀ c ∈ natDigitsRevFuel fuel n, c ∈ digitChars
  | 0, n, h => by omega
  | fuel + 1, n, h => by
    rw [natDigitsRevFuel]
    by_cases h10 : n < 10
    · rw [if_pos h10]
      intro c hc
      rw [List.mem_singleton] at hc
      subst hc
      exact mem_digitChars_of_lt h10
    · rw [if_neg h10]
      intro c hc
      rcases List.mem_cons.mp hc with hc | hc
      · subst hc
        exact mem_digitChars_of_lt (Nat.mod_lt n (by omega))
      · have hdiv : n / 10 < fuel := by
          have := Nat.div_lt_self (by omega : 0 < n) (by omega : 1 < 10)
          omega
        exact natDigitsRevFuel_mem fuel (n / 10) hdiv c hc

theorem natDigitsRevFuel_ne_nil (fuel n : ℕ) (h : n < fuel) :
    natDigitsRevFuel fuel n ≠ [] := by
  cases fuel with
  | zero => omega
  | succ fuel =>
    rw [natDigitsRevFuel]
    by_cases h10 : n < 10
    · rw [if_pos h10]; simp
    · rw [if_neg h10]; simp

theorem digitsVal_append_singleton (l : List Char) (c : Char) :
    digitsVal (l ++ [c]) = 10 * digitsVal l + (c.toNat - 48) := by
  simp [digitsVal, List.foldl_append]

theorem digitsVal_natDigitsRevFuel :
    ∀ (fuel n : ℕ), n < fuel → digitsVal (natDigitsRevFuel fuel n).reverse = n
  | 0, n, h => by omega
  | fuel + 1, n, h => by
    rw [natDigitsRevFuel]
    by_cases h10 : n < 10
    · rw [if_pos h10]
      simp [digitsVal, digitChars_toNat h10]
    · rw [if_neg h10]
      have hdiv : n / 10 < fuel := by
        have := Nat.div_lt_self (by omega : 0 < n) (by omega : 1 < 10)
        omega
      rw [List.reverse_cons, digitsVal_append_singleton,
        digitsVal_natDigitsRevFuel fuel (n / 10) hdiv,
        digitChars_toNat (Nat.mod_lt n (by omega))]
      omega

theorem pyStr_toList (n : ℕ) : (pyStr n).toList = (natDigitsRevFuel (n + 1) n).reverse := rfl

theorem pyStr_mem_digitChars (n : ℕ) : ∀ c ∈ (pyStr n).toList, c ∈ digitChars := by
  intro c hc
  rw [pyStr_toList, List.mem_reverse] at hc
  exact natDigitsRevFuel_mem (n + 1) n (Nat.lt_succ_self n) c hc

theorem pyStr_toList_ne_nil (n : ℕ) : (pyStr n).toList ≠ [] := by
  rw [pyStr_toList]
  intro h
  exact natDigitsRevFuel_ne_nil (n + 1) n (Nat.lt_succ_self n) (by simpa using h)

theorem dropWhile_whitespace_of_digitChars (l : List Char)
    (h : ∀ c ∈ l, c ∈ digitChars) : l.dropWhile Char.isWhitespace = l := by
  cases l with
  | nil => rfl
  | cons c cs =>
    rw [List.dropWhile_cons,
      digitChars_not_whitespace c (h c (List.mem_cons_self _ _))]
    simp

theorem pyStrip_of_digitChars (s : String) (h : ∀ c ∈ s.toList, c ∈ digitChars) :
    pyStrip s = s := by
  rw [pyStrip, dropWhile_whitespace_of_digitChars _ h,
    dropWhile_whitespace_of_digitChars _ (fun c hc => h c (List.mem_reverse.mp hc)),
    List.reverse_reverse]
  rfl

theorem digitsVal_pyStr (n : ℕ) : digitsVal (pyStr n).toList = n := by
  rw [pyStr_toList]
  exact digitsVal_natDigitsRevFuel (n + 1) n (Nat.lt_succ_self n)

theorem pyInt_pyStr (n : ℕ) : pyInt (pyStr n) = some (n : ℤ) := by
  have hmem := pyStr_mem_digitChars n
  rw [pyInt, pyStrip_of_digitChars _ hmem]
  cases hL : (pyStr n).toList with
  | nil => exact absurd hL (pyStr_toList_ne_nil n)
  | cons c cs =>
    have hc : c ∈ digitChars := hmem c (by rw [hL]; exact List.mem_cons_self _ _)
    have hsign := digitChars_ne_sign c hc
    have hall : (c :: cs).all Char.isDigit = true := by
      rw [List.all_eq_true]
      intro x hx
      exact digitChars_isDigit x (hmem x (by rw [hL]; exact hx))
    have hval : digitsVal (c :: cs) = n := by rw [← hL]; exact digitsVal_pyStr n
    simp [hsign.1, hsign.2, hall, hval]

/-! ## Split/join round trip -/

theorem pySplitChars_ne_nil (sep : Char) : ∀ l : List Char, pySplitChars sep l ≠ []
  | [] => by simp [pySplitChars]
  | c :: rest => by
    rw [pySplitChars]
    rcases h : pySplitChars sep rest with _ | ⟨t, ts⟩
    · simp
    · by_cases hc : c = sep
      · simp [hc]
      · simp [hc]

theorem pySplitChars_sepfree (sep : Char) :
    ∀ l : List Char, (∀ c ∈ l, c ≠ sep) → pySplitChars sep l = [l]
  | [], _ => rfl
  | c :: rest, h => by
    rw [pySplitChars, pySplitChars_sepfree sep rest
      (fun c2 hc2 => h c2 (List.mem_cons_of_mem _ hc2))]
    simp [h c (List.mem_cons_self _ _)]

theorem pySplitChars_append (sep : Char) :
    ∀ (p : List Char), (∀ c ∈ p, c ≠ sep) →
      ∀ r : List Char, pySplitChars sep (p ++ sep :: r) = p :: pySplitChars sep r
  | [], _, r => by
    rw [List.nil_append, pySplitChars]
    rcases h : pySplitChars sep r with _ | ⟨t, ts⟩
    · exact absurd h (pySplitChars_ne_nil sep r)
    · simp
  | c :: p, h, r => by
    rw [List.cons_append, pySplitChars,
      pySplitChars_append sep p (fun c2 hc2 => h c2 (List.mem_cons_of_mem _ hc2)) r]
    simp [h c (List.mem_cons_self _ _)]

theorem pySplitChars_joinChars (sep : Char) :
    ∀ ls : List (List Char), (∀ l ∈ ls, ∀ c ∈ l, c ≠ sep) → ls ≠ [] →
      pySplitChars sep (pyJoinChars sep ls) = ls
  | [], _, hne => absurd rfl hne
  | [p], h, _ => by
    rw [pyJoinChars]
    exact pySplitChars_sepfree sep p (h p (List.mem_singleton_self p))
  | p :: q :: rest, h, _ => by
    rw [pyJoinChars, pySplitChars_append sep p (h p (List.mem_cons_self _ _)),
      pySplitChars_joinChars sep (q :: rest)
        (fun l hl => h l (List.mem_cons_of_mem _ hl)) (by simp)]

theorem pySplit_pyJoin (pieces : List String)
    (h : ∀ s ∈ pieces, ∀ c ∈ s.toList, c ≠ ';') (hne : pieces ≠ []) :
    pySplit ';' (pyJoin ';' pieces) = pieces := by
  rw [pySplit, pyJoin]
  rw [show (⟨pyJoinChars ';' (pieces.map String.toList)⟩ : String).toList =
        pyJoinChars ';' (pieces.map String.toList) from rfl]
  rw [pySplitChars_joinChars ';' (pieces.map String.toList)
    (by intro l hl c hc
        obtain ⟨s, hs, rfl⟩ := List.mem_map.mp hl
        exact h s hs c hc)
    (by simpa using hne)]
  rw [List.map_map]
  have : (fun l => (⟨l⟩ : String)) ∘ String.toList = id := by
    funext s
    rfl
  rw [this, List.map_id]

/-! ## Disabled-set round trip through the toggle encoding -/

theorem decode_items_pyStr :
    ∀ ns : List ℕ,
      decode_items (ns.map pyStr) = Except.ok (ns.map (fun n : ℕ => (n : ℤ)))
  | [] => rfl
  | n :: ns => by
    rw [List.map_cons, decode_items, pyInt_pyStr, decode_items_pyStr ns]
    rfl

theorem pyStr_ne_empty (n : ℕ) : pyStr n ≠ "" := by
  intro heq
  have h := pyStr_toList_ne_nil n
  rw [heq] at h
  simp at h

theorem decode_disabled_pyJoin (ns : List ℕ) (hne : ns ≠ []) :
    decode_disabled (pyJoin ';' (ns.map pyStr)) =
      Except.ok (ns.map (fun n : ℕ => (n : ℤ))) := by
  rw [decode_disabled, pySplit_pyJoin (ns.map pyStr)
    (by intro s hs c hc
        obtain ⟨m, _, rfl⟩ := List.mem_map.mp hs
        exact digitChars_ne_semicolon c (pyStr_mem_digitChars m c hc))
    (by simpa using hne)]
  rw [List.filter_eq_self.mpr
    (by intro s hs
        obtain ⟨m, _, rfl⟩ := List.mem_map.mp hs
        simp [pyStr_ne_empty m])]
  exact decode_items_pyStr ns

theorem decode_encode_disabled (sell_rule_vars : List Bool) :
    decode_disabled (encode_disabled sell_rule_vars) =
      Except.ok (((sell_rule_vars.enum.filter (fun p => !p.2)).map
        (fun p => (p.1 : ℤ)))) := by
  rw [encode_disabled]
  rcases hf : sell_rule_vars.enum.filter (fun p => !p.2) with _ | ⟨q, qs⟩
  · rw [hf]
    decide
  · rw [hf]
    rw [show ((q :: qs).map (fun p => pyStr p.1)) = ((q :: qs).map Prod.fst).map pyStr from
      (List.map_map pyStr Prod.fst (q :: qs)).symm]
    rw [decode_disabled_pyJoin ((q :: qs).map Prod.fst) (by simp)]
    rw [List.map_map]
    rfl

/-- C8: the disabled-index-set encoding round-trips — decoding the empty
string yields the empty set, decoding `idx{;idx}*` yields exactly the
listed 0-based integers, and re-encoding any toggle state (one boolean
per sell rule, `false` meaning disabled) then decoding yields exactly
the set of disabled indices. -/
theorem c8_disabled_roundtrip :
    (decode_disabled "" = Except.ok []) ∧
    (∀ ns : List ℕ, ns ≠ [] →
      decode_disabled (pyJoin ';' (ns.map pyStr)) =
        Except.ok (ns.map (fun n : ℕ => (n : ℤ)))) ∧
    (∀ sell_rule_vars : List Bool,
      decode_disabled (encode_disabled sell_rule_vars) =
        Except.ok ((sell_rule_vars.enum.filter (fun p => !p.2)).map
          (fun p => (p.1 : ℤ)))) ∧
    (∀ (sell_rule_vars : List Bool) (i : ℕ),
      ((i : ℤ) ∈ (sell_rule_vars.enum.filter (fun p => !p.2)).map
          (fun p => (p.1 : ℤ))) ↔
        sell_rule_vars[i]? = some false) := by
  refine ⟨decode_disabled_empty, decode_disabled_pyJoin, decode_encode_disabled, ?_⟩
  intro vars i
  constructor
  · intro hmem
    obtain ⟨p, hp, hcast⟩ := List.mem_map.mp hmem
    obtain ⟨henum, hb⟩ := List.mem_filter.mp hp
    have hj : p.1 = i := by exact_mod_cast hcast
    have hb2 : p.2 = false := by
      cases hp2 : p.2
      · rfl
      · rw [hp2] at hb; simp at hb
    have hg := List.mem_enum_iff_getElem?.mp henum
    rw [hj, hb2] at hg
    exact hg
  · intro h
    refine List.mem_map.mpr ⟨(i, false), List.mem_filter.mpr ⟨?_, rfl⟩, rfl⟩
    exact List.mem_enum_iff_getElem?.mpr h

/-- Witness for C8: encoding the toggle state `[true, false, true]`
(only rule 1 disabled) decodes back to exactly `{1}`, and the literal
string join of `0;2` decodes to `{0, 2}`. -/
theorem c8_disabled_roundtrip_witness :
    decode_disabled (encode_disabled [true, false, true]) = Except.ok [(1 : ℤ)] ∧
    decode_disabled (pyJoin ';' ([0, 2].map pyStr)) = Except.ok [(0 : ℤ), 2] ∧
    (((1 : ℤ) ∈ ([true, false, true].enum.filter (fun p => !p.2)).map
        (fun p => (p.1 : ℤ))) ↔ [true, false, true][1]? = some false) := by
  refine ⟨?_, ?_, c8_disabled_roundtrip.2.2.2 [true, false, true] 1⟩
  · rw [c8_disabled_roundtrip.2.2.1 [true, false, true]]
    decide
  · rw [c8_disabled_roundtrip.2.1 [0, 2] (by decide)]
    decide

/-- C9: toggling a sell rule's enabled state mutates only the owning
plan's `sellplan_disabled` field — every other field of every row is
unchanged, rows with a different id are untouched — and the persisted
value is what the next lookup (hence the next evaluation) sees: the
encoded toggle state.  Stated for both plan variants, the
`dinamic_dca_plans` and the `cryptopips_plans` table, matching the
table dispatch of `App._on_sell_rule_toggled` (src/bitage.py lines
279-286). -/
theorem c9_toggle_mutates_only_disabled :
    (∀ (db : List DcaPlan) (plan_id : ℕ) (s : String) (p : DcaPlan),
      p ∈ update_sell_disabled_status_dca db plan_id s →
      ∃ q ∈ db, q.id = p.id ∧ q.name = p.name ∧ q.ticker = p.ticker ∧
        q.athv = p.athv ∧ q.athv_date = p.athv_date ∧ q.buyplan = p.buyplan ∧
        q.sellplan = p.sellplan ∧
        p.sellplan_disabled = (if q.id = plan_id then s else q.sellplan_disabled)) ∧
    (∀ (db : List DcaPlan) (plan_id : ℕ) (s : String) (p : DcaPlan),
      p ∈ db → p.id ≠ plan_id → p ∈ update_sell_disabled_status_dca db plan_id s) ∧
    (∀ (db : List DcaPlan) (plan_id : ℕ) (sell_rule_vars : List Bool) (p : DcaPlan),
      get_plan_dca db plan_id = some p →
      get_plan_dca (on_sell_rule_toggled_dca db plan_id sell_rule_vars) plan_id =
        some { p with sellplan_disabled := encode_disabled sell_rule_vars }) ∧
    (∀ (db : List PipsPlan) (plan_id : ℕ) (s : String) (p : PipsPlan),
      p ∈ update_sell_disabled_status_pips db plan_id s →
      ∃ q ∈ db, q.id = p.id ∧ q.name = p.name ∧ q.ticker = p.ticker ∧
        q.precio_compra = p.precio_compra ∧ q.sellplan = p.sellplan ∧
        p.sellplan_disabled = (if q.id = plan_id then s else q.sellplan_disabled)) ∧
    (∀ (db : List PipsPlan) (plan_id : ℕ) (s : String) (p : PipsPlan),
      p ∈ db → p.id ≠ plan_id → p ∈ update_sell_disabled_status_pips db plan_id s) ∧
    (∀ (db : List PipsPlan) (plan_id : ℕ) (sell_rule_vars : List Bool) (p : PipsPlan),
      get_plan_pips db plan_id = some p →
      get_plan_pips (on_sell_rule_toggled_pips db plan_id sell_rule_vars) plan_id =
        some { p with sellplan_disabled := encode_disabled sell_rule_vars }) := by
  refine ⟨?_, ?_, ?_, ?_, ?_, ?_⟩
  · intro db plan_id s p hp
    rw [update_sell_disabled_status_dca] at hp
    obtain ⟨q, hq, heq⟩ := List.mem_map.mp hp
    refine ⟨q, hq, ?_⟩
    by_cases h : q.id = plan_id
    · rw [if_pos h] at heq
      subst heq
      simp [h]
    · rw [if_neg h] at heq
      subst heq
      simp [h]
  · intro db plan_id s p hp hne
    rw [update_sell_disabled_status_dca]
    refine List.mem_map.mpr ⟨p, hp, ?_⟩
    rw [if_neg hne]
  · intro db plan_id sell_rule_vars p hfind
    rw [on_sell_rule_toggled_dca, update_sell_disabled_status_dca, get_plan_dca,
      List.find?_map]
    have hpred : ((fun q : DcaPlan => q.id == plan_id) ∘
        (fun q : DcaPlan => if q.id = plan_id
          then { q with sellplan_disabled := encode_disabled sell_rule_vars } else q)) =
        (fun q : DcaPlan => q.id == plan_id) := by
      funext q
      by_cases h : q.id = plan_id
      · simp [h]
      · simp [h]
    rw [hpred]
    rw [get_plan_dca] at hfind
    rw [hfind]
    have hid : p.id = plan_id := by simpa using List.find?_some hfind
    simp [hid]
  · intro db plan_id s p hp
    rw [update_sell_disabled_status_pips] at hp
    obtain ⟨q, hq, heq⟩ := List.mem_map.mp hp
    refine ⟨q, hq, ?_⟩
    by_cases h : q.id = plan_id
    · rw [if_pos h] at heq
      subst heq
      simp [h]
    · rw [if_neg h] at heq
      subst heq
      simp [h]
  · intro db plan_id s p hp hne
    rw [update_sell_disabled_status_pips]
    refine List.mem_map.mpr ⟨p, hp, ?_⟩
    rw [if_neg hne]
  · intro db plan_id sell_rule_vars p hfind
    rw [on_sell_rule_toggled_pips, update_sell_disabled_status_pips, get_plan_pips,
      List.find?_map]
    have hpred : ((fun q : PipsPlan => q.id == plan_id) ∘
        (fun q : PipsPlan => if q.id = plan_id
          then { q with sellplan_disabled := encode_disabled sell_rule_vars } else q)) =
        (fun q : PipsPlan => q.id == plan_id) := by
      funext q
      by_cases h : q.id = plan_id
      · simp [h]
      · simp [h]
    rw [hpred]
    rw [get_plan_pips] at hfind
    rw [hfind]
    have hid : p.id = plan_id := by simpa using List.find?_some hfind
    simp [hid]

/-- Witness for C9: toggling rule 1 off on a one-row database updates
exactly the `sellplan_disabled` field of that row, as seen by the next
lookup, for a DinamicDCA row and for a Cryptopips row. -/
theorem c9_toggle_mutates_only_disabled_witness :
    get_plan_dca (on_sell_rule_toggled_dca
        [⟨1, "a", "T", 5, "d", "bp", "sp", ""⟩] 1 [true, false]) 1 =
      some ⟨1, "a", "T", 5, "d", "bp", "sp", encode_disabled [true, false]⟩ ∧
    (∃ q ∈ [(⟨1, "a", "T", 5, "d", "bp", "sp", ""⟩ : DcaPlan)],
      q.id = (⟨1, "a", "T", 5, "d", "bp", "sp", "0"⟩ : DcaPlan).id ∧
      q.name = (⟨1, "a", "T", 5, "d", "bp", "sp", "0"⟩ : DcaPlan).name ∧
      q.ticker = (⟨1, "a", "T", 5, "d", "bp", "sp", "0"⟩ : DcaPlan).ticker ∧
      q.athv = (⟨1, "a", "T", 5, "d", "bp", "sp", "0"⟩ : DcaPlan).athv ∧
      q.athv_date = (⟨1, "a", "T", 5, "d", "bp", "sp", "0"⟩ : DcaPlan).athv_date ∧
      q.buyplan = (⟨1, "a", "T", 5, "d", "bp", "sp", "0"⟩ : DcaPlan).buyplan ∧
      q.sellplan = (⟨1, "a", "T", 5, "d", "bp", "sp", "0"⟩ : DcaPlan).sellplan ∧
      (⟨1, "a", "T", 5, "d", "bp", "sp", "0"⟩ : DcaPlan).sellplan_disabled =
        (if q.id = 1 then "0" else q.sellplan_disabled)) ∧
    get_plan_pips (on_sell_rule_toggled_pips
        [⟨2, "b", "U", 7, "sp2", ""⟩] 2 [false, true]) 2 =
      some ⟨2, "b", "U", 7, "sp2", encode_disabled [false, true]⟩ ∧
    (∃ q ∈ [(⟨2, "b", "U", 7, "sp2", ""⟩ : PipsPlan)],
      q.id = (⟨2, "b", "U", 7, "sp2", "1"⟩ : PipsPlan).id ∧
      q.name = (⟨2, "b", "U", 7, "sp2", "1"⟩ : PipsPlan).name ∧
      q.ticker = (⟨2, "b", "U", 7, "sp2", "1"⟩ : PipsPlan).ticker ∧
      q.precio_compra = (⟨2, "b", "U", 7, "sp2", "1"⟩ : PipsPlan).precio_compra ∧
      q.sellplan = (⟨2, "b", "U", 7, "sp2", "1"⟩ : PipsPlan).sellplan ∧
      (⟨2, "b", "U", 7, "sp2", "1"⟩ : PipsPlan).sellplan_disabled =
        (if q.id = 2 then "1" else q.sellplan_disabled)) :=
  ⟨c9_toggle_mutates_only_disabled.2.2.1 [⟨1, "a", "T", 5, "d", "bp", "sp", ""⟩] 1
      [true, false] ⟨1, "a", "T", 5, "d", "bp", "sp", ""⟩ rfl,
   c9_toggle_mutates_only_disabled.1 [⟨1, "a", "T", 5, "d", "bp", "sp", ""⟩] 1 "0"
      ⟨1, "a", "T", 5, "d", "bp", "sp", "0"⟩ (List.mem_singleton_self _),
   c9_toggle_mutates_only_disabled.2.2.2.2.2 [⟨2, "b", "U", 7, "sp2", ""⟩] 2
      [false, true] ⟨2, "b", "U", 7, "sp2", ""⟩ rfl,
   c9_toggle_mutates_only_disabled.2.2.2.1 [⟨2, "b", "U", 7, "sp2", ""⟩] 2 "1"
      ⟨2, "b", "U", 7, "sp2", "1"⟩ (List.mem_singleton_self _)⟩

/-- C10: the disabled-index set is modified only by the toggle
operation — every newly inserted plan row (DinamicDCA or Cryptopips)
starts with an empty `sellplan_disabled` string, and the update
operations (name, ticker, prices, dates, rule strings) leave every
row's existing `sellplan_disabled` unchanged. -/
theorem c10_disabled_only_via_toggle :
    (∀ (db : List DcaPlan) (name ticker : String) (athv : ℚ)
       (athv_date buyplan sellplan : String) (p : DcaPlan),
      p ∈ add_dinamic_dca db name ticker athv athv_date buyplan sellplan →
      p ∈ db ∨ p.sellplan_disabled = "") ∧
    (∀ (db : List DcaPlan) (plan_id : ℕ) (name ticker : String) (athv : ℚ)
       (athv_date buyplan sellplan : String),
      (update_dinamic_dca db plan_id name ticker athv athv_date buyplan sellplan).map
        DcaPlan.sellplan_disabled = db.map DcaPlan.sellplan_disabled) ∧
    (∀ (db : List PipsPlan) (name ticker : String) (precio_compra : ℚ)
       (sellplan : String) (p : PipsPlan),
      p ∈ add_cryptopips db name ticker precio_compra sellplan →
      p ∈ db ∨ p.sellplan_disabled = "") ∧
    (∀ (db : List PipsPlan) (plan_id : ℕ) (name ticker : String) (precio_compra : ℚ)
       (sellplan : String),
      (update_cryptopips db plan_id name ticker precio_compra sellplan).map
        PipsPlan.sellplan_disabled = db.map PipsPlan.sellplan_disabled) := by
  refine ⟨?_, ?_, ?_, ?_⟩
  · intro db name ticker athv athv_date buyplan sellplan p hp
    rw [add_dinamic_dca] at hp
    rcases List.mem_append.mp hp with h | h
    · exact Or.inl h
    · right
      rw [List.mem_singleton] at h
      rw [h]
  · intro db plan_id name ticker athv athv_date buyplan sellplan
    rw [update_dinamic_dca, List.map_map]
    refine List.map_congr_left ?_
    intro q _
    by_cases h : q.id = plan_id
    · simp [h]
    · simp [h]
  · intro db name ticker precio_compra sellplan p hp
    rw [add_cryptopips] at hp
    rcases List.mem_append.mp hp with h | h
    · exact Or.inl h
    · right
      rw [List.mem_singleton] at h
      rw [h]
  · intro db plan_id name ticker precio_compra sellplan
    rw [update_cryptopips, List.map_map]
    refine List.map_congr_left ?_
    intro q _
    by_cases h : q.id = plan_id
    · simp [h]
    · simp [h]

/-- Witness for C10: a freshly inserted DinamicDCA row carries the empty
disabled string, and an edit of a one-row database preserves the stored
disabled string `0`. -/
theorem c10_disabled_only_via_toggle_witness :
    ((⟨1, "a", "T", 5, "d", "bp", "sp", ""⟩ : DcaPlan) ∈ ([] : List DcaPlan) ∨
      (⟨1, "a", "T", 5, "d", "bp", "sp", ""⟩ : DcaPlan).sellplan_disabled = "") ∧
    (update_dinamic_dca [⟨1, "a", "T", 5, "d", "bp", "sp", "0"⟩] 1
        "b" "U" 6 "d2" "bp2" "sp2").map DcaPlan.sellplan_disabled =
      [(⟨1, "a", "T", 5, "d", "bp", "sp", "0"⟩ : DcaPlan)].map DcaPlan.sellplan_disabled :=
  ⟨c10_disabled_only_via_toggle.1 [] "a" "T" 5 "d" "bp" "sp"
      ⟨1, "a", "T", 5, "d", "bp", "sp", ""⟩ (List.mem_singleton_self _),
   c10_disabled_only_via_toggle.2.1 [⟨1, "a", "T", 5, "d", "bp", "sp", "0"⟩] 1
      "b" "U" 6 "d2" "bp2" "sp2"⟩
